import Mathlib

/-!
Verification of the DOF search and retrieval subsystem
(`src/tools/dof_search.py`, class `DOFSearcher`).

The Python code is shallowly embedded: pure helpers become Lean functions
on `List Char` / `String`; the network is modelled by explicit parameters
holding the outcome a fetch would have produced (a failed fetch is the
`none` / `Except.error` case, a successful one carries the status code and
the body the later pure stages would see).  Python `str.lower` / `str.upper`
are modelled on the ASCII range plus the accented letters that actually
occur in the embedded literals.
-/

namespace DOF

/-- Model of Python `str.lower` on one character: ASCII letters plus the
accented letters occurring in the literals of the source file. -/
def pyToLower (c : Char) : Char :=
  if 'A' ≤ c ∧ c ≤ 'Z' then Char.ofNat (c.toNat + 32)
  else if c = 'Á' then 'á' else if c = 'É' then 'é' else if c = 'Í' then 'í'
  else if c = 'Ó' then 'ó' else if c = 'Ú' then 'ú' else if c = 'Ñ' then 'ñ'
  else if c = 'Ü' then 'ü' else c

/-- Model of Python `str.upper` on one character, same scope as `pyToLower`. -/
def pyToUpper (c : Char) : Char :=
  if 'a' ≤ c ∧ c ≤ 'z' then Char.ofNat (c.toNat - 32)
  else if c = 'á' then 'Á' else if c = 'é' then 'É' else if c = 'í' then 'Í'
  else if c = 'ó' then 'Ó' else if c = 'ú' then 'Ú' else if c = 'ñ' then 'Ñ'
  else if c = 'ü' then 'Ü' else c

def lowerL (l : List Char) : List Char := l.map pyToLower

def upperL (l : List Char) : List Char := l.map pyToUpper

/-- Model of Python `str.lower`. -/
def pyLower (s : String) : String := String.mk (lowerL s.data)

/-- Model of Python `str.upper`. -/
def pyUpper (s : String) : String := String.mk (upperL s.data)

/-- Whitespace class of Python regular expressions and `str.split`,
restricted to the ASCII whitespace characters. -/
def pyIsSpace (c : Char) : Bool :=
  c == ' ' || c == '\t' || c == '\n' || c == '\r' ||
  c == Char.ofNat 11 || c == Char.ofNat 12

/-- Model of the Python substring test `needle in hay`. -/
def containsSub (needle : List Char) : List Char → Bool
  | [] => needle.isEmpty
  | c :: t => needle.isPrefixOf (c :: t) || containsSub needle t

/-- Model of Python `str.split()` with no argument: split on runs of
whitespace, discarding empty words.  `cur` accumulates the current word in
reverse. -/
def splitWSAux : List Char → List Char → List (List Char)
  | [], cur => if cur.isEmpty then [] else [cur.reverse]
  | c :: t, cur =>
    if pyIsSpace c then
      if cur.isEmpty then splitWSAux t [] else cur.reverse :: splitWSAux t []
    else splitWSAux t (c :: cur)

def splitWS (l : List Char) : List (List Char) := splitWSAux l []

/-- Model of Python `str.startswith`. -/
def pyStartsWith (s pre : String) : Bool := pre.data.isPrefixOf s.data

/-- Embedding of the dataclass `DOFSearchResult`.  `publication_date`
models the optional `datetime` as a year, month, day triple. -/
structure DOFSearchResult where
  title : String
  date : String
  url : String
  summary : String
  type : String
  codigo : Option String := none
  content : Option String := none
  keywords : Option (List String) := none
  publication_date : Option (Nat × Nat × Nat) := none
  deriving DecidableEq, Repr

/-- Key used by `_remove_duplicates`: lowercased url, a separator bar,
lowercased title. -/
def dedupKey (r : DOFSearchResult) : String :=
  pyLower r.url ++ "|" ++ pyLower r.title

/-- Loop of `_remove_duplicates`, with the `seen` set modelled as the list
of keys inserted so far. -/
def removeDuplicatesAux (seen : List String) :
    List DOFSearchResult → List DOFSearchResult
  | [] => []
  | r :: rest =>
    if dedupKey r ∈ seen then removeDuplicatesAux seen rest
    else r :: removeDuplicatesAux (dedupKey r :: seen) rest

/-- Embedding of `DOFSearcher._remove_duplicates`. -/
def remove_duplicates (results : List DOFSearchResult) : List DOFSearchResult :=
  removeDuplicatesAux [] results

/-- Deduplication as the specification words it: keep each list head and
recursively drop every later element carrying the same key. -/
def dedupeSpec : List DOFSearchResult → List DOFSearchResult
  | [] => []
  | r :: rest => r :: dedupeSpec (rest.filter (fun y => dedupKey y != dedupKey r))
termination_by l => l.length
decreasing_by
  have h : (rest.filter (fun y => dedupKey y != dedupKey r)).length ≤ rest.length :=
    (List.filter_sublist rest).length_le
  simp only [List.length_cons]
  omega

/-- Model of Python `str.replace old new` (all non-overlapping occurrences,
scanning left to right).  On a match the remaining `old.length - 1` matched
characters are consumed through the skip counter, which keeps the recursion
structural.  The source never calls it with an empty `old`; for an empty
`old` this model is the identity. -/
def replaceAllAux (old new : List Char) : List Char → Nat → List Char
  | [], _ => []
  | _ :: t, n + 1 => replaceAllAux old new t n
  | c :: t, 0 =>
    if old ≠ [] ∧ old.isPrefixOf (c :: t) then
      new ++ replaceAllAux old new t (old.length - 1)
    else c :: replaceAllAux old new t 0

def replaceAll (old new l : List Char) : List Char := replaceAllAux old new l 0

/-- Single-quote character, used as a replacement value in the mojibake
table. -/
def squote : String := String.mk [Char.ofNat 39]

/-- Mis-encoding repair table of `_clean_document_content`, in Python dict
insertion order.  The source dict literal lists the key made of a-circumflex,
euro sign, double-quote twice; the second value wins, so that key maps to the
en dash.  The third key is the letter a-tilde followed by the soft hyphen
character, written here as `Char.ofNat 173`. -/
def mojibakeTable : List (List Char × List Char) :=
  [ ("Ã¡".data, "á".data), ("Ã©".data, "é".data),
    (['Ã', Char.ofNat 173], "í".data),
    ("Ã³".data, "ó".data), ("Ãº".data, "ú".data),
    ("Ã±".data, "ñ".data), ("ÃÃ±".data, "ñ".data),
    ("Ãœ".data, "Ü".data), ("Ã¼".data, "ü".data),
    ("â€™".data, squote.data), ("â€œ".data, "\"".data), ("â€".data, "\"".data),
    ("â€\"".data, "–".data),
    ("Â°".data, "°".data), ("Â".data, []), ("â€¢".data, "•".data) ]

/-- Loop `for old, new in replacements.items(): text = text.replace(old, new)`. -/
def applyReplacements (l : List Char) : List Char :=
  mojibakeTable.foldl (fun acc p => replaceAll p.1 p.2 acc) l

/-- Model of `re.sub` with a whitespace-run pattern and a single-space
replacement: every maximal whitespace run becomes one space.  The Boolean
state records whether the previous character was whitespace. -/
def collapseWSAux : List Char → Bool → List Char
  | [], _ => []
  | c :: t, prevSpace =>
    if pyIsSpace c then
      if prevSpace then collapseWSAux t true else ' ' :: collapseWSAux t true
    else c :: collapseWSAux t false

def collapseWS (l : List Char) : List Char := collapseWSAux l false

/-- Helper for the blank-line pattern: scan the whitespace run at the head
of the list and return the text right after the last newline inside the run,
or `none` when the run holds no newline.  This mirrors the greedy interior
of the second whitespace `re.sub` of `_clean_document_content`. -/
def afterLastNlInRun : List Char → Option (List Char)
  | [] => none
  | c :: t =>
    if c = '\n' then
      match afterLastNlInRun t with
      | some r => some r
      | none => some t
    else if pyIsSpace c then afterLastNlInRun t
    else none

/-- Model of `re.sub` with the pattern newline, greedy whitespace run,
newline, replaced by two newlines.  On a match the matched span after the
first newline is consumed through the skip counter. -/
def collapseBLAux : List Char → Nat → List Char
  | [], _ => []
  | _ :: t, n + 1 => collapseBLAux t n
  | c :: t, 0 =>
    if c = '\n' then
      match afterLastNlInRun t with
      | some r => '\n' :: '\n' :: collapseBLAux t (t.length - r.length)
      | none => c :: collapseBLAux t 0
    else c :: collapseBLAux t 0

def collapseBlankLines (l : List Char) : List Char := collapseBLAux l 0

/-- Case-insensitive prefix test against an already-lowercased pattern. -/
def ciHasPrefixLow (pat l : List Char) : Bool := pat.isPrefixOf (lowerL l)

/-- Return the text right after the first case-insensitive occurrence of
`pat` (already lowercased), or `none` if it never occurs. -/
def findCiSuffix (pat : List Char) : List Char → Option (List Char)
  | [] => if pat.isEmpty then some [] else none
  | c :: t =>
    if ciHasPrefixLow pat (c :: t) then some ((c :: t).drop pat.length)
    else findCiSuffix pat t

/-- Model of `re.sub(pattern, replacement-empty)` for a pattern of the shape
literal head, lazy gap, literal tail, compiled with the ignore-case and
dot-matches-all flags: scan left to right, on a match of the head take the
shortest gap reaching the tail, drop the whole match and continue after it.
Both literals are supplied already lowercased.  The matched span after the
first character is consumed through the skip counter. -/
def subLazyAux (p s : List Char) : List Char → Nat → List Char
  | [], _ => []
  | _ :: t, n + 1 => subLazyAux p s t n
  | c :: t, 0 =>
    if p ≠ [] ∧ ciHasPrefixLow p (c :: t) then
      match findCiSuffix s ((c :: t).drop p.length) with
      | some rest => subLazyAux p s t (t.length - rest.length)
      | none => c :: subLazyAux p s t 0
    else c :: subLazyAux p s t 0

def subLazy (p s l : List Char) : List Char := subLazyAux p s l 0

/-- Boilerplate patterns of `_clean_document_content` as head and tail
literal pairs, lowercased.  The second pattern ends in a lazy star with
nothing after it, so its tail literal is empty. -/
def boilerplatePats : List (List Char × List Char) :=
  [ ("usuario clave entrar".data, "usuario".data),
    ("¿olvidó su".data, []),
    ("javascript".data, "disabled".data),
    ("cookies".data, "navegador".data) ]

/-- Loop removing the boilerplate patterns in order. -/
def applyBoilerplate (l : List Char) : List Char :=
  boilerplatePats.foldl (fun acc p => subLazy p.1 p.2 acc) l

/-- Model of Python `str.strip()`. -/
def stripL (l : List Char) : List Char :=
  ((l.dropWhile pyIsSpace).reverse.dropWhile pyIsSpace).reverse

/-- Embedding of `DOFSearcher._clean_document_content`. -/
def clean_document_content (s : String) : String :=
  if s = "" then ""
  else
    String.mk (stripL (applyBoilerplate (collapseBlankLines (collapseWS
      (applyReplacements s.data)))))

/-- Base url of the searcher (`self.base_url`). -/
def base_url : String := "https://www.dof.gob.mx"

/-- Model of an anchor tag carrying an href attribute: its href and its
stripped text. -/
structure Anchor where
  href : String
  text : String
  deriving DecidableEq, Repr

/-- Model of one HTML result element as the extractor consumes it:
the anchors with href in document order (`element.find` picks the first),
and the stripped texts of the td, div and span descendants in document
order (`element.find_all`). -/
structure HtmlElement where
  anchors : List Anchor
  cells : List String
  deriving DecidableEq, Repr

/-- Model of Python `str.lstrip` with the slash argument. -/
def lstripSlash (s : String) : String :=
  String.mk (s.data.dropWhile (fun c => c = '/'))

/-- Url absolutization step of `_extract_result_from_element`. -/
def joinUrl (href : String) : String :=
  if pyStartsWith href "http" then href else base_url ++ "/" ++ lstripSlash href

/-- Regex `codigo=` followed by a digit run, as used by `re.search` with a
group capture: leftmost match wins and the digit run is maximal. -/
def findCodigoL : List Char → Option (List Char)
  | [] => none
  | c :: t =>
    if "codigo=".data.isPrefixOf (c :: t) then
      let ds := ((c :: t).drop 7).takeWhile Char.isDigit
      if ds.isEmpty then findCodigoL t else some ds
    else findCodigoL t

/-- Extraction of the DOF code from a url. -/
def findCodigo (url : String) : Option String :=
  (findCodigoL url.data).map String.mk

/-- Regex match for one or two digits, a slash, one or two digits, a slash,
four digits, anchored at the start of the text (`re.match`). -/
def afterDigits12Slash (l : List Char) : List (List Char) :=
  match l with
  | a :: b :: c :: r =>
    (if a.isDigit ∧ b = '/' then [c :: r] else []) ++
    (if a.isDigit ∧ b.isDigit ∧ c = '/' then [r] else [])
  | [a, b] => if a.isDigit ∧ b = '/' then [[]] else []
  | _ => []

def fourDigitsAtStart (l : List Char) : Bool :=
  decide ((l.take 4).length = 4) && (l.take 4).all Char.isDigit

/-- Model of `re.match` against the date pattern of the extractor. -/
def matchesDate (l : List Char) : Bool :=
  (afterDigits12Slash l).any (fun r => (afterDigits12Slash r).any fourDigitsAtStart)

/-- Document-type keywords the extractor scans the cells for. -/
def typeKeywords : List (List Char) :=
  ["DECRETO".data, "LEY".data, "ACUERDO".data, "REGLAMENTO".data]

/-- One iteration of the cell loop of `_extract_result_from_element`,
updating the document type, date and summary accumulators. -/
def cellStep (acc : String × String × String) (text : String) :
    String × String × String :=
  let docType :=
    if typeKeywords.any (fun t => containsSub t (upperL text.data)) then pyUpper text
    else acc.1
  let dateStr := if matchesDate text.data then text else acc.2.1
  let summary :=
    if text.length > 50 ∧ acc.2.2 = "" then
      (if text.length > 200 then String.mk (text.data.take 200) ++ "..." else text)
    else acc.2.2
  (docType, dateStr, summary)

/-- Embedding of `DOFSearcher._extract_result_from_element`. -/
def extract_result_from_element (e : HtmlElement) : Option DOFSearchResult :=
  match e.anchors.head? with
  | none => none
  | some link =>
    let url := joinUrl link.href
    let f := e.cells.foldl cellStep ("", "", "")
    some { title := link.text, date := f.2.1, url := url, summary := f.2.2,
           type := if f.1 = "" then "DOCUMENTO" else f.1,
           codigo := findCodigo url }

/-- Url records of `_extract_dof_urls_from_web_search` (`known_urls`). -/
structure UrlInfo where
  url : String
  title : String
  date : String
  type : String
  deriving DecidableEq, Repr

def known_urls : List UrlInfo :=
  [ { url := "https://dof.gob.mx/nota_detalle.php?codigo=5593045&fecha=08/05/2020",
      title := "DECRETO por el que se reforma y adiciona el artículo 4o. de la Constitución Política",
      date := "08/05/2020", type := "DECRETO" },
    { url := "https://www.dof.gob.mx/nota_detalle.php?codigo=5738985&fecha=15/09/2024",
      title := "DECRETO por el que se reforman diversas disposiciones constitucionales",
      date := "15/09/2024", type := "DECRETO" },
    { url := "https://www.dof.gob.mx/nota_detalle.php?codigo=5359649&fecha=10/09/2014",
      title := "ACUERDO por el que se aprueba la modificación a la estructura orgánica",
      date := "10/09/2014", type := "ACUERDO" } ]

/-- Digits-to-number helper for date parsing. -/
def natOfDigits (l : List Char) : Nat :=
  l.foldl (fun n c => n * 10 + (c.toNat - 48)) 0

/-- Model of `datetime.strptime(s, day-month-year)`: day and month of one
or two digits, a four-digit year, with basic range validation; `none` on
failure (the source swallows the exception). -/
def parseDateDMY (s : String) : Option (Nat × Nat × Nat) :=
  match s.data.splitOn '/' with
  | [d, m, y] =>
    if d ≠ [] ∧ d.length ≤ 2 ∧ d.all Char.isDigit ∧
       m ≠ [] ∧ m.length ≤ 2 ∧ m.all Char.isDigit ∧
       y.length = 4 ∧ y.all Char.isDigit ∧
       1 ≤ natOfDigits d ∧ natOfDigits d ≤ 31 ∧
       1 ≤ natOfDigits m ∧ natOfDigits m ≤ 12 then
      some (natOfDigits y, natOfDigits m, natOfDigits d)
    else none
  | _ => none

/-- Embedding of `DOFSearcher._create_result_from_url`.  Every field access
in the source is guarded by `.get` with a default except `url`, which every
`known_urls` record carries, so the except branch is dead and the result is
always `some`. -/
def create_result_from_url (u : UrlInfo) : Option DOFSearchResult :=
  some { title := u.title, date := u.date, url := u.url, summary := "",
         type := u.type, codigo := findCodigo u.url,
         publication_date := parseDateDMY u.date }

/-- Query string built by `_search_via_web_engines` when no date bounds are
given (the embedding models calls without date filters). -/
def webQueryFor (query : String) : String :=
  "site:dof.gob.mx \"" ++ query ++ "\""

/-- Embedding of `DOFSearcher._extract_dof_urls_from_web_search`. -/
def extract_dof_urls_from_web_search (q : String) : List UrlInfo :=
  known_urls.filter
    (fun u => (splitWS (lowerL q.data)).any
      (fun kw => containsSub kw (lowerL u.title.data)))

/-- Embedding of `DOFSearcher._search_via_web_engines` (static discovery
strategy; it performs no network call). -/
def search_via_web_engines (query : String) (lim : Nat) : List DOFSearchResult :=
  ((extract_dof_urls_from_web_search (webQueryFor query)).take lim).filterMap
    create_result_from_url

/-- Static knowledge base of `_get_known_constitutional_documents`. -/
def constitutional_docs : List DOFSearchResult :=
  [ { title := "DECRETO por el que se reforma y adiciona el artículo 4o. de la Constitución Política de los Estados Unidos Mexicanos",
      date := "08/05/2020",
      url := "https://dof.gob.mx/nota_detalle.php?codigo=5593045&fecha=08/05/2020",
      summary := "Se reforma el párrafo cuarto y se adicionan párrafos al artículo 4º constitucional en materia de derechos humanos.",
      type := "DECRETO", codigo := some "5593045",
      publication_date := some (2020, 5, 8) },
    { title := "DECRETO por el que se reforman, adicionan y derogan diversas disposiciones del artículo 2o. de la Constitución",
      date := "30/09/2024",
      url := "https://www.dof.gob.mx/nota_detalle.php?codigo=5738000&fecha=30/09/2024",
      summary := "Reforma al artículo 2º constitucional en materia de Pueblos y Comunidades Indígenas y Afromexicanos.",
      type := "DECRETO", codigo := some "5738000",
      publication_date := some (2024, 9, 30) },
    { title := "DECRETO por el que se reforma el Artículo 4o. de la Constitución Política (1992)",
      date := "28/01/1992",
      url := "https://www.dof.gob.mx/nota_detalle.php?codigo=4646755&fecha=28/01/1992",
      summary := "Reforma histórica al artículo 4º constitucional durante el gobierno de Carlos Salinas de Gortari.",
      type := "DECRETO", codigo := some "4646755",
      publication_date := some (1992, 1, 28) } ]

/-- Embedding of `DOFSearcher._get_known_constitutional_documents`. -/
def get_known_constitutional_documents (query : String) : List DOFSearchResult :=
  constitutional_docs.filter
    (fun d => (splitWS (lowerL query.data)).any
      (fun kw => containsSub kw (lowerL d.title.data) ||
                 containsSub kw (lowerL d.summary.data)))

/-- Trigger of the knowledge-base strategy in `search_legislation`. -/
def constitutionalTrigger (query : String) : Bool :=
  ["constitución".data, "artículo 4".data, "constitucional".data].any
    (fun kw => containsSub kw (lowerL query.data))

/-- Outcome of one `search_legislation` call together with which of the two
later strategies were consulted (for the short-circuit property). -/
structure SearchRun where
  results : List DOFSearchResult
  webEnginesCalled : Bool
  knowledgeBaseCalled : Bool
  deriving Repr

/-- Embedding of `DOFSearcher.search_legislation` without date bounds.
The network-dependent direct strategy is a parameter: `direct` is the list
`_search_dof_direct` returned (empty when every fetch failed, which the
except arm turns into an empty contribution). -/
def search_legislation_run (direct : List DOFSearchResult) (query : String)
    (limit : Nat) : SearchRun :=
  let r1 := direct
  let callWeb := r1.length < limit
  let r2 := if callWeb then r1 ++ search_via_web_engines query (limit - r1.length)
            else r1
  let callKb := decide (r2.length < limit) && constitutionalTrigger query
  let r3 := if callKb then
      r2 ++ (get_known_constitutional_documents query).take (limit - r2.length)
    else r2
  { results := (remove_duplicates r3).take limit,
    webEnginesCalled := callWeb, knowledgeBaseCalled := callKb }

/-- Result list of `search_legislation`. -/
def search_legislation (direct : List DOFSearchResult) (query : String)
    (limit : Nat) : List DOFSearchResult :=
  (search_legislation_run direct query limit).results

/-- Diagnostic text block built by the except arm of
`get_document_content`. -/
def manualAccessHeader : String :=
  "SOLUCIÓN MANUAL:\nPara acceder al contenido completo:\n1. Abra la URL directamente en su navegador\n2. Visite: "

def errorCauses : String :=
  "\nPOSIBLES CAUSAS:\n1. El documento requiere autenticación\n2. La URL ha cambiado o no existe\n3. El sitio del DOF está bloqueando el acceso automatizado\n4. Problemas de conexión de red\n\n"

def error_msg (url e : String) : String :=
  "\n❌ ERROR AL OBTENER CONTENIDO DEL DOCUMENTO\n\nURL: " ++ url ++
  "\nError: " ++ e ++ "\n" ++ errorCauses ++ manualAccessHeader ++ url ++
  "\n3. Use el sitio oficial: https://www.dof.gob.mx\n\n"

/-- Embedding of `DOFSearcher.get_document_content`.  The fetch and the
content-container extraction are summarized by `fetched`: `Except.error e`
when the request raised or returned a bad status (the message Python would
render), `Except.ok text` carrying the text the selector pipeline
extracted before cleaning. -/
def get_document_content (url : String) (fetched : Except String String) : String :=
  match fetched with
  | Except.error e => error_msg url e
  | Except.ok extracted => clean_document_content extracted

/-- Static fallback list of `_get_fallback_latest_publications`. -/
def fallback_latest_publications : List DOFSearchResult :=
  [ { title := "DECRETO por el que se fortalecen los procesos de búsqueda de personas desaparecidas",
      date := "18/03/2025",
      url := "https://www.dof.gob.mx/nota_detalle.php?codigo=5752331&fecha=18/03/2025",
      summary := "Decreto presidencial para fortalecer los procesos de búsqueda de personas desaparecidas y no localizadas.",
      type := "DECRETO", codigo := some "5752331" },
    { title := "Estructura ocupacional de recursos aprobados en servicios personales",
      date := "28/02/2025",
      url := "https://www.dof.gob.mx/nota_detalle.php?codigo=5750590&fecha=28/02/2025",
      summary := "Estructura ocupacional con integración de recursos aprobados en el capítulo de servicios personales.",
      type := "ACUERDO", codigo := some "5750590" } ]

/-- Embedding of `DOFSearcher.get_latest_publications`.  `fetched` is
`none` when the homepage request raised, otherwise the status code and the
list `_parse_latest_publications` produced from the body. -/
def get_latest_publications (fetched : Option (Nat × List DOFSearchResult))
    (limit : Nat) : List DOFSearchResult :=
  match fetched with
  | some (status, parsed) =>
    if status = 200 ∧ parsed ≠ [] then parsed
    else fallback_latest_publications.take limit
  | none => fallback_latest_publications.take limit

/-- Sub-queries issued by `search_constitution`. -/
def constitutionQueries (article : Option String) : List String :=
  match article with
  | some a =>
    ["Constitución Política artículo " ++ a,
     "CPEUM artículo " ++ a,
     "artículo " ++ a ++ " constitucional",
     "reforma artículo " ++ a ++ " constitución"]
  | none => ["Constitución Política Estados Unidos Mexicanos"]

/-- Embedding of `DOFSearcher.search_constitution`.  `direct` gives the
direct-strategy outcome per sub-query. -/
def search_constitution (direct : String → List DOFSearchResult)
    (article : Option String) : List DOFSearchResult :=
  let all := (constitutionQueries article).foldl
    (fun acc q => acc ++ search_legislation (direct q) q 5) []
  (remove_duplicates all).take 20

/-- Type table of `search_codigo`. -/
def codigo_mapping : List (String × String) :=
  [("civil", "Código Civil Federal"), ("penal", "Código Penal Federal"),
   ("comercio", "Código de Comercio"), ("fiscal", "Código Fiscal de la Federación"),
   ("trabajo", "Ley Federal del Trabajo"),
   ("procedimientos", "Código Federal de Procedimientos")]

/-- Sub-queries issued by `search_codigo`. -/
def codigoQueries (codigo_type : String) (article : Option String) : List String :=
  let codigo_name :=
    (((codigo_mapping.find? (fun p => p.1 == pyLower codigo_type)).map Prod.snd).getD
      ("Código " ++ codigo_type))
  match article with
  | some a =>
    [codigo_name ++ " artículo " ++ a,
     "artículo " ++ a ++ " " ++ pyLower codigo_name]
  | none => [codigo_name]

/-- Embedding of `DOFSearcher.search_codigo`. -/
def search_codigo (direct : String → List DOFSearchResult)
    (codigo_type : String) (article : Option String) : List DOFSearchResult :=
  let all := (codigoQueries codigo_type article).foldl
    (fun acc q => acc ++ search_legislation (direct q) q 5) []
  (remove_duplicates all).take 20

/-- Every whitespace character of the text is a plain space. -/
def allSpaceIsBlank (l : List Char) : Bool :=
  l.all (fun c => !pyIsSpace c || c == ' ')

/-- No two adjacent whitespace characters. -/
def noDoubleSpace : List Char → Bool
  | [] => true
  | [_] => true
  | c :: d :: t => !(pyIsSpace c && pyIsSpace d) && noDoubleSpace (d :: t)

/-- Neither end of the text is whitespace. -/
def edgeOk (l : List Char) : Bool :=
  (l.head?.elim true (fun c => !pyIsSpace c)) &&
  (l.getLast?.elim true (fun c => !pyIsSpace c))

/-- A text on which every stage of `_clean_document_content` is the
identity: no mis-encoding key occurs, whitespace is single plain interior
spaces, and no boilerplate pattern head occurs case-insensitively. -/
def cleanStable (l : List Char) : Bool :=
  mojibakeTable.all (fun p => !containsSub p.1 l) &&
  allSpaceIsBlank l && noDoubleSpace l && edgeOk l &&
  boilerplatePats.all (fun p => !containsSub p.1 (lowerL l))

theorem removeDuplicatesAux_sublist (l : List DOFSearchResult) :
    ∀ seen, (removeDuplicatesAux seen l).Sublist l := by
  induction l with
  | nil => intro seen; simp [removeDuplicatesAux]
  | cons r rest ih =>
    intro seen
    by_cases h : dedupKey r ∈ seen
    · simp only [removeDuplicatesAux, if_pos h]
      exact List.Sublist.cons r (ih seen)
    · simp only [removeDuplicatesAux, if_neg h]
      exact List.Sublist.cons₂ r (ih (dedupKey r :: seen))

theorem remove_duplicates_sublist (l : List DOFSearchResult) :
    (remove_duplicates l).Sublist l :=
  removeDuplicatesAux_sublist l []

theorem removeDuplicatesAux_keys (l : List DOFSearchResult) :
    ∀ seen, ((removeDuplicatesAux seen l).map dedupKey).Nodup ∧
      ∀ k ∈ (removeDuplicatesAux seen l).map dedupKey, k ∉ seen := by
  induction l with
  | nil => intro seen; simp [removeDuplicatesAux]
  | cons r rest ih =>
    intro seen
    by_cases h : dedupKey r ∈ seen
    · simpa only [removeDuplicatesAux, if_pos h] using ih seen
    · obtain ⟨ihn, ihm⟩ := ih (dedupKey r :: seen)
      simp only [removeDuplicatesAux, if_neg h, List.map_cons, List.nodup_cons]
      refine ⟨⟨fun hk => ?_, ihn⟩, fun k hk => ?_⟩
      · exact (ihm _ hk) (List.mem_cons_self _ _)
      · rcases List.mem_cons.mp hk with hk | hk
        · subst hk; exact h
        · exact fun hks => (ihm k hk) (List.mem_cons_of_mem _ hks)

theorem remove_duplicates_keys_nodup (l : List DOFSearchResult) :
    ((remove_duplicates l).map dedupKey).Nodup :=
  (removeDuplicatesAux_keys l []).1

theorem removeDuplicatesAux_first (l : List DOFSearchResult) :
    ∀ seen, ∀ x ∈ l, dedupKey x ∉ seen →
      ∃ y ∈ removeDuplicatesAux seen l, dedupKey y = dedupKey x := by
  induction l with
  | nil => intro seen x hx; simp at hx
  | cons r rest ih =>
    intro seen x hx hxs
    by_cases h : dedupKey r ∈ seen
    · simp only [removeDuplicatesAux, if_pos h]
      rcases List.mem_cons.mp hx with hx | hx
      · subst hx; exact absurd h hxs
      · exact ih seen x hx hxs
    · simp only [removeDuplicatesAux, if_neg h]
      by_cases hkey : dedupKey x = dedupKey r
      · exact ⟨r, List.mem_cons_self _ _, hkey.symm⟩
      · rcases List.mem_cons.mp hx with hx | hx
        · subst hx; exact absurd rfl hkey
        · obtain ⟨y, hy, hk⟩ := ih (dedupKey r :: seen) x hx (by
            intro hc
            rcases List.mem_cons.mp hc with hc | hc
            · exact hkey hc
            · exact hxs hc)
          exact ⟨y, List.mem_cons_of_mem r hy, hk⟩

theorem data_append (s t : String) : (s ++ t).data = s.data ++ t.data := rfl

theorem mk_data (s : String) : String.mk s.data = s := rfl

theorem removeDuplicatesAux_eq_dedupeSpec (l : List DOFSearchResult) :
    ∀ seen, removeDuplicatesAux seen l =
      dedupeSpec (l.filter (fun r => decide (dedupKey r ∉ seen))) := by
  induction l with
  | nil => intro seen; simp [removeDuplicatesAux, dedupeSpec]
  | cons r rest ih =>
    intro seen
    by_cases h : dedupKey r ∈ seen
    · have hd : decide (dedupKey r ∉ seen) = false := by simp [h]
      rw [List.filter_cons]
      simp only [removeDuplicatesAux, if_pos h, hd]
      simp only [Bool.false_eq_true, if_false]
      exact ih seen
    · have hd : decide (dedupKey r ∉ seen) = true := by simp [h]
      rw [List.filter_cons]
      simp only [removeDuplicatesAux, if_neg h, hd, if_true]
      simp only [dedupeSpec, List.cons.injEq, true_and]
      rw [ih (dedupKey r :: seen), List.filter_filter]
      congr 1
      apply List.filter_congr
      intro x _
      by_cases h1 : dedupKey x = dedupKey r <;> by_cases h2 : dedupKey x ∈ seen <;>
        simp [h1, h2]

theorem remove_duplicates_eq_dedupeSpec (l : List DOFSearchResult) :
    remove_duplicates l = dedupeSpec l := by
  have h := removeDuplicatesAux_eq_dedupeSpec l []
  simpa [remove_duplicates] using h

theorem replaceAll_of_not_contains (old new l) (h : containsSub old l = false) :
    replaceAll old new l = l := by
  unfold replaceAll
  induction l with
  | nil => rfl
  | cons c t ih =>
    simp only [containsSub, Bool.or_eq_false_iff] at h
    rw [replaceAllAux, if_neg]
    · rw [ih h.2]
    · rintro ⟨-, hpre⟩
      rw [h.1] at hpre
      exact Bool.noConfusion hpre

theorem foldl_replaceAll_of_stable (tbl : List (List Char × List Char)) :
    ∀ l, (∀ p ∈ tbl, containsSub p.1 l = false) →
      tbl.foldl (fun acc p => replaceAll p.1 p.2 acc) l = l := by
  induction tbl with
  | nil => intro l _; rfl
  | cons p rest ih =>
    intro l h
    simp only [List.foldl_cons]
    rw [replaceAll_of_not_contains p.1 p.2 l (h p (List.mem_cons_self _ _))]
    exact ih l (fun q hq => h q (List.mem_cons_of_mem _ hq))

theorem applyReplacements_of_stable (l : List Char)
    (h : ∀ p ∈ mojibakeTable, containsSub p.1 l = false) :
    applyReplacements l = l :=
  foldl_replaceAll_of_stable mojibakeTable l h

theorem noDoubleSpace_tail (c : Char) (t : List Char)
    (h : noDoubleSpace (c :: t) = true) : noDoubleSpace t = true := by
  cases t with
  | nil => rfl
  | cons d t2 =>
    simp only [noDoubleSpace, Bool.and_eq_true] at h
    exact h.2

theorem collapseWSAux_true_of_head (t : List Char)
    (h : t.head?.elim true (fun c => !pyIsSpace c) = true) :
    collapseWSAux t true = collapseWSAux t false := by
  cases t with
  | nil => rfl
  | cons d t2 =>
    simp only [List.head?_cons, Option.elim] at h
    have hd : pyIsSpace d = false := by simpa using h
    simp only [collapseWSAux, hd, Bool.false_eq_true, if_false]

theorem collapseWS_of_stable (l : List Char) (ha : allSpaceIsBlank l = true)
    (hd : noDoubleSpace l = true) : collapseWS l = l := by
  unfold collapseWS
  induction l with
  | nil => rfl
  | cons c t ih =>
    have hat : allSpaceIsBlank t = true := by
      simp only [allSpaceIsBlank, List.all_cons, Bool.and_eq_true] at ha
      exact ha.2
    have hdt : noDoubleSpace t = true := noDoubleSpace_tail c t hd
    by_cases hs : pyIsSpace c
    · have hc : c = ' ' := by
        simp only [allSpaceIsBlank, List.all_cons, Bool.and_eq_true] at ha
        have := ha.1
        rw [hs] at this
        simpa using this
      have hhead : t.head?.elim true (fun x => !pyIsSpace x) = true := by
        cases t with
        | nil => rfl
        | cons d t2 =>
          simp only [noDoubleSpace, Bool.and_eq_true] at hd
          have h1 := hd.1
          rw [hs] at h1
          simp only [List.head?_cons, Option.elim]
          simpa using h1
      rw [collapseWSAux, if_pos hs]
      simp only [Bool.false_eq_true, if_false]
      rw [collapseWSAux_true_of_head t hhead, ih hat hdt, hc]
    · rw [collapseWSAux, if_neg hs, ih hat hdt]

theorem collapseBlankLines_of_stable (l : List Char)
    (ha : allSpaceIsBlank l = true) : collapseBlankLines l = l := by
  unfold collapseBlankLines
  induction l with
  | nil => rfl
  | cons c t ih =>
    have hat : allSpaceIsBlank t = true := by
      simp only [allSpaceIsBlank, List.all_cons, Bool.and_eq_true] at ha
      exact ha.2
    have hc : ¬ c = '\n' := by
      intro hcn
      simp only [allSpaceIsBlank, List.all_cons, Bool.and_eq_true] at ha
      have := ha.1
      rw [hcn] at this
      simp [pyIsSpace] at this
    rw [collapseBLAux, if_neg hc, ih hat]

theorem subLazy_of_not_contains (p s l) (h : containsSub p (lowerL l) = false) :
    subLazy p s l = l := by
  unfold subLazy
  induction l with
  | nil => rfl
  | cons c t ih =>
    have hlow : lowerL (c :: t) = pyToLower c :: lowerL t := by simp [lowerL]
    rw [hlow] at h
    simp only [containsSub, Bool.or_eq_false_iff] at h
    have hpre : ciHasPrefixLow p (c :: t) = false := by
      unfold ciHasPrefixLow
      rw [hlow]
      exact h.1
    rw [subLazyAux, if_neg]
    · rw [ih h.2]
    · rintro ⟨-, hh⟩
      rw [hpre] at hh
      exact Bool.noConfusion hh

theorem foldl_subLazy_of_stable (pats : List (List Char × List Char)) :
    ∀ l, (∀ p ∈ pats, containsSub p.1 (lowerL l) = false) →
      pats.foldl (fun acc p => subLazy p.1 p.2 acc) l = l := by
  induction pats with
  | nil => intro l _; rfl
  | cons p rest ih =>
    intro l h
    simp only [List.foldl_cons]
    rw [subLazy_of_not_contains p.1 p.2 l (h p (List.mem_cons_self _ _))]
    exact ih l (fun q hq => h q (List.mem_cons_of_mem _ hq))

theorem applyBoilerplate_of_stable (l : List Char)
    (h : ∀ p ∈ boilerplatePats, containsSub p.1 (lowerL l) = false) :
    applyBoilerplate l = l :=
  foldl_subLazy_of_stable boilerplatePats l h

theorem dropWhile_eq_self_of_head (l : List Char)
    (h : l.head?.elim true (fun c => !pyIsSpace c) = true) :
    l.dropWhile pyIsSpace = l := by
  cases l with
  | nil => rfl
  | cons c t =>
    simp only [List.head?_cons, Option.elim] at h
    simp [List.dropWhile_cons, show pyIsSpace c = false by simpa using h]

theorem stripL_of_stable (l : List Char) (h : edgeOk l = true) : stripL l = l := by
  simp only [edgeOk, Bool.and_eq_true] at h
  unfold stripL
  rw [dropWhile_eq_self_of_head l h.1]
  have hrev : l.reverse.head?.elim true (fun c => !pyIsSpace c) = true := by
    rw [List.head?_reverse]
    exact h.2
  rw [dropWhile_eq_self_of_head l.reverse hrev, List.reverse_reverse]

theorem clean_fixpoint (s : String) (h : cleanStable s.data = true) :
    clean_document_content s = s := by
  simp only [cleanStable, Bool.and_eq_true, List.all_eq_true] at h
  obtain ⟨⟨⟨⟨hmoji, hblank⟩, hdouble⟩, hedge⟩, hpats⟩ := h
  unfold clean_document_content
  by_cases hs : s = ""
  · rw [if_pos hs, hs]
  · rw [if_neg hs]
    rw [applyReplacements_of_stable s.data
      (fun p hp => by simpa using hmoji p hp)]
    rw [collapseWS_of_stable s.data hblank hdouble]
    rw [collapseBlankLines_of_stable s.data hblank]
    rw [applyBoilerplate_of_stable s.data
      (fun p hp => by simpa using hpats p hp)]
    rw [stripL_of_stable s.data hedge]

theorem search_legislation_length_le (direct : List DOFSearchResult)
    (query : String) (limit : Nat) :
    (search_legislation direct query limit).length ≤ limit :=
  List.length_take_le _ _

theorem keysNodup_take (l : List DOFSearchResult) (n : Nat) :
    (((remove_duplicates l).take n).map dedupKey).Nodup := by
  have hsub : ((remove_duplicates l).take n).Sublist (remove_duplicates l) :=
    List.take_sublist _ _
  exact List.Nodup.sublist (hsub.map dedupKey) (remove_duplicates_keys_nodup l)

/-- Claim C1 counterexample: the extractor applies no title-length or
blocklist filter.  An element whose only text is the anchor text Usuario
yields a result titled Usuario, and a three-character title is also
accepted, contradicting the claimed filter. -/
theorem extract_title_filter_counterexample :
    extract_result_from_element
      { anchors := [{ href := "/inicio.php", text := "Usuario" }],
        cells := ["Usuario"] } =
      some { title := "Usuario", date := "",
             url := "https://www.dof.gob.mx/inicio.php",
             summary := "", type := "DOCUMENTO" } ∧
    extract_result_from_element
      { anchors := [{ href := "/x", text := "abc" }], cells := [] } =
      some { title := "abc", date := "", url := "https://www.dof.gob.mx/x",
             summary := "", type := "DOCUMENTO" } ∧
    "abc".length < 5 :=
  ⟨by decide, by decide, by decide⟩

/-- Claim C1 (amended): result extraction drops an element exactly when it
has no anchor with an href; any element with an anchor yields a result
whose title is the anchor text, with no minimum-length or blocklist check. -/
theorem extract_no_title_filter (e : HtmlElement) :
    (e.anchors = [] → extract_result_from_element e = none) ∧
    ∀ a rest, e.anchors = a :: rest →
      ∃ r, extract_result_from_element e = some r ∧ r.title = a.text := by
  constructor
  · intro h
    simp [extract_result_from_element, h]
  · intro a rest h
    simp only [extract_result_from_element, h, List.head?_cons]
    exact ⟨_, rfl, rfl⟩

theorem extract_no_title_filter_witness :
    ∃ r, extract_result_from_element
        { anchors := [{ href := "/inicio_sesion.php", text := "Usuario" }],
          cells := [] } = some r ∧
      r.title = "Usuario" :=
  (extract_no_title_filter
    { anchors := [{ href := "/inicio_sesion.php", text := "Usuario" }],
      cells := [] }).2
    { href := "/inicio_sesion.php", text := "Usuario" } [] rfl

/-- Claim C2 counterexample: the content cleaner is not idempotent.
Removing the boilerplate span leaves a double space that only a second
pass collapses. -/
theorem clean_idempotence_counterexample :
    clean_document_content "a Usuario Clave Entrar b usuario c" = "a  c" ∧
    clean_document_content
      (clean_document_content "a Usuario Clave Entrar b usuario c") = "a c" ∧
    clean_document_content
      (clean_document_content "a Usuario Clave Entrar b usuario c") ≠
      clean_document_content "a Usuario Clave Entrar b usuario c" :=
  ⟨by decide, by decide, by decide⟩

/-- Claim C2 (amended): the cleaner is idempotent on every input whose
cleaned form is stable, that is, free of mojibake keys, with single plain
interior spaces and no boilerplate-pattern occurrence; in general a second
pass can differ, as the counterexample shows. -/
theorem clean_idempotent_on_stable (s : String)
    (h : cleanStable (clean_document_content s).data = true) :
    clean_document_content (clean_document_content s) =
      clean_document_content s :=
  clean_fixpoint _ h

theorem clean_idempotent_on_stable_witness :
    clean_document_content (clean_document_content "hola mundo") =
      clean_document_content "hola mundo" :=
  clean_idempotent_on_stable "hola mundo" (by decide)

/-- Claim C3: for every query and limit, `search_legislation` returns at
most `limit` results, whatever the strategies contribute. -/
theorem search_legislation_respects_limit (direct : List DOFSearchResult)
    (query : String) (limit : Nat) :
    (search_legislation direct query limit).length ≤ limit :=
  search_legislation_length_le direct query limit

/-- Claim C4: `_remove_duplicates` equals the keep-first-occurrence-per-key
specification, is a subsequence of its input (hence order preserving), has
pairwise distinct keys, and keeps a representative of every input key. -/
theorem remove_duplicates_spec (X : List DOFSearchResult) :
    remove_duplicates X = dedupeSpec X ∧
    (remove_duplicates X).Sublist X ∧
    ((remove_duplicates X).map dedupKey).Nodup ∧
    ∀ x ∈ X, ∃ y ∈ remove_duplicates X, dedupKey y = dedupKey x :=
  ⟨remove_duplicates_eq_dedupeSpec X, remove_duplicates_sublist X,
   remove_duplicates_keys_nodup X,
   fun x hx => removeDuplicatesAux_first X [] x hx (List.not_mem_nil _)⟩

theorem remove_duplicates_spec_witness :
    ∃ y ∈ remove_duplicates [{ title := "A", date := "", url := "u", summary := "", type := "T" }],
      dedupKey y = dedupKey { title := "A", date := "", url := "u", summary := "", type := "T" } :=
  (remove_duplicates_spec _).2.2.2 _ (List.mem_singleton.mpr rfl)

/-- Claim C5: `get_document_content` is total; on a failure it returns the
diagnostic block, which contains the failed url, the error detail and the
manual-access instructions, and on success it returns the cleaned text. -/
theorem get_document_content_spec (url e extracted : String) :
    get_document_content url (Except.error e) = error_msg url e ∧
    url.data <:+: (get_document_content url (Except.error e)).data ∧
    e.data <:+: (get_document_content url (Except.error e)).data ∧
    manualAccessHeader.data <:+: (get_document_content url (Except.error e)).data ∧
    get_document_content url (Except.ok extracted) =
      clean_document_content extracted := by
  have h0 : get_document_content url (Except.error e) = error_msg url e := rfl
  refine ⟨h0, ?_, ?_, ?_, rfl⟩
  · rw [h0]
    have hd : (error_msg url e).data =
        "\n❌ ERROR AL OBTENER CONTENIDO DEL DOCUMENTO\n\nURL: ".data ++
        url.data ++
        ("\nError: ".data ++ e.data ++ "\n".data ++ errorCauses.data ++
         manualAccessHeader.data ++ url.data ++
         "\n3. Use el sitio oficial: https://www.dof.gob.mx\n\n".data) := by
      simp [error_msg, data_append, List.append_assoc]
    rw [hd]
    exact ⟨_, _, rfl⟩
  · rw [h0]
    have hd : (error_msg url e).data =
        ("\n❌ ERROR AL OBTENER CONTENIDO DEL DOCUMENTO\n\nURL: ".data ++
         url.data ++ "\nError: ".data) ++ e.data ++
        ("\n".data ++ errorCauses.data ++ manualAccessHeader.data ++
         url.data ++
         "\n3. Use el sitio oficial: https://www.dof.gob.mx\n\n".data) := by
      simp [error_msg, data_append, List.append_assoc]
    rw [hd]
    exact ⟨_, _, rfl⟩
  · rw [h0]
    have hd : (error_msg url e).data =
        ("\n❌ ERROR AL OBTENER CONTENIDO DEL DOCUMENTO\n\nURL: ".data ++
         url.data ++ "\nError: ".data ++ e.data ++ "\n".data ++
         errorCauses.data) ++ manualAccessHeader.data ++
        (url.data ++
         "\n3. Use el sitio oficial: https://www.dof.gob.mx\n\n".data) := by
      simp [error_msg, data_append, List.append_assoc]
    rw [hd]
    exact ⟨_, _, rfl⟩

/-- Claim C6: searching the constitutional query with every network fetch
failing still returns a result from the static knowledge base, and every
returned result has a non-empty title and url. -/
theorem search_constitucion_articulo4_offline :
    (∃ r ∈ search_legislation [] "constitución artículo 4" 20,
      r ∈ constitutional_docs) ∧
    ∀ r ∈ search_legislation [] "constitución artículo 4" 20,
      r.title ≠ "" ∧ r.url ≠ "" := by
  constructor
  · decide
  · decide

theorem search_constitucion_articulo4_offline_witness :
    (constitutional_docs.get ⟨0, by decide⟩).title ≠ "" ∧
    (constitutional_docs.get ⟨0, by decide⟩).url ≠ "" :=
  search_constitucion_articulo4_offline.2 _ (by decide)

/-- Claim C7: when the direct strategy alone reaches the limit, neither the
web-engine discovery strategy nor the knowledge-base strategy is consulted. -/
theorem search_strategy_short_circuit (direct : List DOFSearchResult)
    (query : String) (limit : Nat) (h : limit ≤ direct.length) :
    (search_legislation_run direct query limit).webEnginesCalled = false ∧
    (search_legislation_run direct query limit).knowledgeBaseCalled = false := by
  have h1 : ¬ direct.length < limit := by omega
  refine ⟨?_, ?_⟩ <;> simp [search_legislation_run, h1]

theorem search_strategy_short_circuit_witness :
    (search_legislation_run [{ title := "A", date := "", url := "u", summary := "", type := "T" }] "q" 1).webEnginesCalled = false ∧
    (search_legislation_run [{ title := "A", date := "", url := "u", summary := "", type := "T" }] "q" 1).knowledgeBaseCalled = false :=
  search_strategy_short_circuit _ _ _ (by decide)

/-- Claim C8: extraction produces absolute urls: the concrete root-relative
href is joined under the base origin, any href starting with http is kept
as-is, and any other href is joined under the base origin. -/
theorem extract_url_absolute (e : HtmlElement) (a : Anchor)
    (rest : List Anchor) (h : e.anchors = a :: rest) :
    (a.href = "/nota_detalle.php?codigo=123" →
      ∃ r, extract_result_from_element e = some r ∧
        r.url = "https://www.dof.gob.mx/nota_detalle.php?codigo=123") ∧
    (pyStartsWith a.href "http" = true →
      ∃ r, extract_result_from_element e = some r ∧ r.url = a.href) ∧
    (pyStartsWith a.href "http" = false →
      ∃ r, extract_result_from_element e = some r ∧
        r.url = base_url ++ "/" ++ lstripSlash a.href) := by
  have hmain : ∃ r, extract_result_from_element e = some r ∧
      r.url = joinUrl a.href := by
    simp only [extract_result_from_element, h, List.head?_cons]
    exact ⟨_, rfl, rfl⟩
  obtain ⟨r, hr, hu⟩ := hmain
  refine ⟨fun hh => ⟨r, hr, ?_⟩, fun hh => ⟨r, hr, ?_⟩, fun hh => ⟨r, hr, ?_⟩⟩
  · rw [hu, hh]
    decide
  · rw [hu]
    simp [joinUrl, hh]
  · rw [hu]
    simp [joinUrl, hh]

theorem extract_url_absolute_witness :
    ∃ r, extract_result_from_element
        { anchors := [{ href := "/nota_detalle.php?codigo=123", text := "DECRETO ejemplo" }], cells := [] } = some r ∧
      r.url = "https://www.dof.gob.mx/nota_detalle.php?codigo=123" :=
  (extract_url_absolute _ _ _ rfl).1 rfl

/-- Claim C9: `get_latest_publications` is total and never empty for a
positive limit; on a failed fetch, a bad status or an empty parse it
returns the static fallback truncated to the limit, whose length is the
minimum of the limit and two. -/
theorem get_latest_publications_fallback
    (fetched : Option (Nat × List DOFSearchResult)) (limit : Nat) :
    (1 ≤ limit → get_latest_publications fetched limit ≠ []) ∧
    (fetched = none → get_latest_publications fetched limit =
      fallback_latest_publications.take limit) ∧
    (∀ status parsed, fetched = some (status, parsed) →
      status ≠ 200 ∨ parsed = [] →
      get_latest_publications fetched limit =
        fallback_latest_publications.take limit) ∧
    (fallback_latest_publications.take limit).length = min limit 2 := by
  have hlen : (fallback_latest_publications.take limit).length = min limit 2 := by
    have h2 : fallback_latest_publications.length = 2 := rfl
    rw [List.length_take, h2]
  have hfb : 1 ≤ limit → fallback_latest_publications.take limit ≠ [] := by
    intro hl
    have hpos : 0 < (fallback_latest_publications.take limit).length := by
      rw [hlen]
      omega
    exact List.length_pos.mp hpos
  refine ⟨?_, ?_, ?_, hlen⟩
  · intro hl
    cases fetched with
    | none => exact hfb hl
    | some p =>
      obtain ⟨status, parsed⟩ := p
      by_cases hc : status = 200 ∧ parsed ≠ []
      · simp only [get_latest_publications, if_pos hc]
        exact hc.2
      · simp only [get_latest_publications, if_neg hc]
        exact hfb hl
  · intro hn
    subst hn
    rfl
  · intro status parsed hs hcond
    subst hs
    have hc : ¬(status = 200 ∧ parsed ≠ []) := by
      rcases hcond with h2 | h2
      · exact fun hcc => h2 hcc.1
      · exact fun hcc => hcc.2 h2
    simp only [get_latest_publications, if_neg hc]

theorem get_latest_publications_fallback_witness :
    get_latest_publications none 1 ≠ [] ∧
    get_latest_publications none 1 = fallback_latest_publications.take 1 :=
  ⟨(get_latest_publications_fallback none 1).1 (by decide),
   (get_latest_publications_fallback none 1).2.1 rfl⟩

/-- Claim C10: `search_constitution` and `search_codigo` return at most 20
results with pairwise distinct deduplication keys, and every sub-query is
issued through `search_legislation` with a per-query limit of five results. -/
theorem search_constitution_codigo_bounded
    (direct : String → List DOFSearchResult) (article : Option String)
    (codigo_type : String) (article2 : Option String) :
    (search_constitution direct article).length ≤ 20 ∧
    ((search_constitution direct article).map dedupKey).Nodup ∧
    (search_codigo direct codigo_type article2).length ≤ 20 ∧
    ((search_codigo direct codigo_type article2).map dedupKey).Nodup ∧
    ∀ q, (search_legislation (direct q) q 5).length ≤ 5 :=
  ⟨List.length_take_le _ _, keysNodup_take _ _,
   List.length_take_le _ _, keysNodup_take _ _,
   fun q => search_legislation_length_le (direct q) q 5⟩

end DOF
